import Mathlib

/-!
Verification of the pii-scan detection core.

This file gives a shallow embedding, in Lean 4, of the detection-and-scoring
engine of the pii-scan repository (`src/scanner.ts` together with the pattern
catalog in `src/patterns.ts`), and proves the specification's claims about it.

Modelling conventions:
* JS strings are modelled as Lean `String` (lists of characters); the inputs
  exercised by the specification are ASCII, where JS UTF-16 code-unit
  indexing and Lean character indexing agree.
* JS `Record<string, string[]>` objects are modelled as insertion-ordered
  association lists with unique keys (`ColumnTable`); `Object.entries`
  iteration order is insertion order for the non-numeric keys used here.
* JS regular expressions are modelled by an explicit syntax tree (`Rx`) and a
  backtracking matcher with ECMAScript semantics (leftmost match, ordered
  alternation, greedy quantifiers).  Termination is by an explicit fuel
  parameter chosen large enough for every search path; none of the catalog's
  quantified subexpressions can match the empty string, so the ECMAScript
  rule that stops a quantifier after an empty iteration never fires.
* `JSON.parse` is a host-language builtin; it is modelled by a fueled
  recursive-descent parser for the JSON grammar (`jsonParse`).
-/

namespace PiiScan

/-- `RiskLevel` from `patterns.ts`: `"HIGH" | "MEDIUM" | "LOW"`. -/
inductive RiskLevel where
  | LOW
  | MEDIUM
  | HIGH
deriving DecidableEq, Repr

/-- Position of a risk level in the array `["LOW", "MEDIUM", "HIGH"]`,
as used by `maxRisk` (`order.indexOf`). -/
def riskIndex : RiskLevel → Nat
  | .LOW => 0
  | .MEDIUM => 1
  | .HIGH => 2

/-- `maxRisk` from `scanner.ts`:
`order.indexOf(a) >= order.indexOf(b) ? a : b`. -/
def maxRisk (a b : RiskLevel) : RiskLevel :=
  if riskIndex b ≤ riskIndex a then a else b

/-- The order `LOW < MEDIUM < HIGH` on risk levels. -/
def riskLe (a b : RiskLevel) : Prop := riskIndex a ≤ riskIndex b

instance (a b : RiskLevel) : Decidable (riskLe a b) := by
  unfold riskLe; infer_instance

/-- `redact` from `scanner.ts`:
`if (value.length <= 4) return "****";`
`return value.slice(0, 2) + "*".repeat(Math.min(value.length - 4, 8)) + value.slice(-2);` -/
def redact (value : String) : String :=
  if value.length ≤ 4 then "****"
  else
    String.mk (value.data.take 2)
      ++ String.mk (List.replicate (min (value.length - 4) 8) '*')
      ++ String.mk (value.data.drop (value.length - 2))

/-! ### A model of the ECMAScript regular expressions used by the catalog

Only the constructs appearing in `patterns.ts` are represented: character
literals, character classes built from singletons, ranges, `\d` and `\s`,
the wildcard `.`, the word boundary `\b`, concatenation, ordered
alternation, and greedy counted repetition (covering `?`, `+`, `{n}`,
`{m,n}` and `{m,}`).  Capturing and non-capturing groups only serve
grouping in these patterns (no backreferences, and only `m[0]` is ever
read), so they need no representation of their own. -/

/-- One atom of a character class. -/
inductive ClsItem where
  | single (c : Char)
  | range (lo hi : Char)
  | digit
  | space
deriving Repr

/-- Regular-expression syntax trees for the catalog's patterns. -/
inductive Rx where
  | eps
  | ch (c : Char)
  | cls (items : List ClsItem)
  | dot
  | wb
  | cat (a b : Rx)
  | alt (a b : Rx)
  | rep (r : Rx) (lo : Nat) (hi : Option Nat)
deriving Repr

/-- ECMAScript `\w` (word character): `[A-Za-z0-9_]`. -/
def isWordChar (c : Char) : Bool :=
  ('a' ≤ c && c ≤ 'z') || ('A' ≤ c && c ≤ 'Z') || ('0' ≤ c && c ≤ '9') || c = '_'

/-- ECMAScript `\s` restricted to the ASCII whitespace characters
(space, tab, line feed, carriage return, vertical tab, form feed);
the inputs under study contain no Unicode whitespace. -/
def isJsSpace (c : Char) : Bool :=
  c = ' ' || c = Char.ofNat 9 || c = Char.ofNat 10 || c = Char.ofNat 13 ||
    c = Char.ofNat 11 || c = Char.ofNat 12

/-- Character comparison, under the `i` flag folding ASCII case
(ECMAScript `Canonicalize`). -/
def charEq (ic : Bool) (a b : Char) : Bool :=
  if ic then a.toLower = b.toLower else a = b

/-- Does class atom `it` match character `c`?  Under the `i` flag a range
also matches the other-case variant of `c` (ASCII `Canonicalize`). -/
def clsItemMatch (ic : Bool) (it : ClsItem) (c : Char) : Bool :=
  match it with
  | .single a => charEq ic a c
  | .range lo hi =>
      (lo ≤ c && c ≤ hi) ||
        (ic && ((lo ≤ c.toLower && c.toLower ≤ hi) || (lo ≤ c.toUpper && c.toUpper ≤ hi)))
  | .digit => '0' ≤ c && c ≤ '9'
  | .space => isJsSpace c

/-- Does the character class `items` match `c`? -/
def clsMatch (ic : Bool) (items : List ClsItem) (c : Char) : Bool :=
  items.any (fun it => clsItemMatch ic it c)

/-- ECMAScript line terminators excluded by `.` (the ASCII ones). -/
def isLineTerm (c : Char) : Bool :=
  c = Char.ofNat 10 || c = Char.ofNat 13

/-- Is there a word character just before the current position?
`prev` is the character immediately preceding the position
(`none` at the start of the input). -/
def isWordOpt : Option Char → Bool
  | none => false
  | some c => isWordChar c

/-- Is the character at the current position a word character?
(`false` at the end of the input). -/
def isWordHead : List Char → Bool
  | [] => false
  | c :: _ => isWordChar c

/-- The backtracking matcher, in continuation-passing style, mirroring the
ECMAScript matching algorithm: ordered alternation tries the left branch
first, repetition is greedy, `\b` consults the previous character `prev` and
the head of the remaining input `s`.  The continuation `k` receives the
previous-character marker and the input remaining after the part matched so
far; the result is the final `(prev, rest)` pair of a successful overall
match.  `fuel` bounds recursion depth and is chosen generously by callers. -/
def mRx (ic : Bool) : Nat → Rx → Option Char → List Char →
    (Option Char → List Char → Option (Option Char × List Char)) →
    Option (Option Char × List Char)
  | 0, _, _, _, _ => none
  | fuel + 1, rx, prev, s, k =>
    match rx with
    | .eps => k prev s
    | .ch c =>
      match s with
      | c2 :: s2 => if charEq ic c c2 then k (some c2) s2 else none
      | [] => none
    | .cls items =>
      match s with
      | c2 :: s2 => if clsMatch ic items c2 then k (some c2) s2 else none
      | [] => none
    | .dot =>
      match s with
      | c2 :: s2 => if isLineTerm c2 then none else k (some c2) s2
      | [] => none
    | .wb => if isWordOpt prev != isWordHead s then k prev s else none
    | .cat a b => mRx ic fuel a prev s (fun p2 s2 => mRx ic fuel b p2 s2 k)
    | .alt a b =>
      match mRx ic fuel a prev s k with
      | some r => some r
      | none => mRx ic fuel b prev s k
    | .rep r lo hi =>
      match lo with
      | lo2 + 1 =>
        mRx ic fuel r prev s
          (fun p2 s2 => mRx ic fuel (.rep r lo2 (hi.map (· - 1))) p2 s2 k)
      | 0 =>
        match hi with
        | some 0 => k prev s
        | _ =>
          match mRx ic fuel r prev s
              (fun p2 s2 => mRx ic fuel (.rep r 0 (hi.map (· - 1))) p2 s2 k) with
          | some res => some res
          | none => k prev s

/-- Size of a regex tree, used to compute a sufficient fuel bound. -/
def rxSize : Rx → Nat
  | .eps | .ch _ | .cls _ | .dot | .wb => 1
  | .cat a b => rxSize a + rxSize b + 1
  | .alt a b => rxSize a + rxSize b + 1
  | .rep r lo hi => rxSize r + lo + (match hi with | some n => n | none => 0) + 1

/-- Fuel sufficient for matching `rx` against `s`: every search path either
consumes a character or descends into the (finite) regex structure, so its
depth is far below this bound. -/
def rxFuel (rx : Rx) (s : List Char) : Nat :=
  (s.length + rxSize rx + 8) * 16

/-- Try to match `rx` at the current position (`prev`, `s`); on success
return the final previous-character marker and the remaining input. -/
def execHere (ic : Bool) (rx : Rx) (prev : Option Char) (s : List Char) :
    Option (Option Char × List Char) :=
  mRx ic (rxFuel rx s) rx prev s (fun p2 s2 => some (p2, s2))

/-- `RegExp.prototype.exec` search: try the match at each successive
position, left to right, returning the matched text together with the
matcher state after the match.  The matched text is recovered from the
lengths of the suffixes. -/
def findFrom (ic : Bool) (rx : Rx) (prev : Option Char) (s : List Char) :
    Option (List Char × Option Char × List Char) :=
  match execHere ic rx prev s with
  | some (p2, s2) => some (s.take (s.length - s2.length), p2, s2)
  | none =>
    match s with
    | [] => none
    | c :: cs => findFrom ic rx (some c) cs

/-- The iteration of `String.prototype.matchAll`: collect successive
non-overlapping matches, resuming after each match (advancing one extra
character after an empty match, per `lastIndex` handling).  The fuel is one
step per match and cannot run out on inputs of length `s.length`. -/
def matchAllGo (ic : Bool) (rx : Rx) : Nat → Option Char → List Char → List String
  | 0, _, _ => []
  | fuel + 1, prev, s =>
    match findFrom ic rx prev s with
    | none => []
    | some (m, p2, s2) =>
      if m.isEmpty then
        String.mk m ::
          (match s2 with
            | [] => []
            | c :: cs => matchAllGo ic rx fuel (some c) cs)
      else String.mk m :: matchAllGo ic rx fuel p2 s2

/-- `[...blob.matchAll(pattern)]`, as the list of matched texts `m[0]`. -/
def matchAllRx (ic : Bool) (rx : Rx) (s : String) : List String :=
  matchAllGo ic rx (s.data.length + 2) none s.data

/-- `pattern.test(s)`: does the pattern match anywhere in `s`? -/
def rxTest (ic : Bool) (rx : Rx) (s : String) : Bool :=
  (findFrom ic rx none s.data).isSome

/-! ### The pattern catalog (`patterns.ts`)

Each regex literal from the source is transcribed into an `Rx` tree.  The
doc comment of each definition quotes the original literal so the
transcription can be checked against the source character by character. -/

/-- Concatenation of a list of regexes. -/
def catL : List Rx → Rx
  | [] => .eps
  | [r] => r
  | r :: rs => .cat r (catL rs)

/-- Ordered alternation of a list of regexes (left branch preferred). -/
def altL : List Rx → Rx
  | [] => .eps
  | [r] => r
  | r :: rs => .alt r (altL rs)

/-- A string literal, character by character. -/
def lit (s : String) : Rx := catL (s.data.map Rx.ch)

/-- Greedy `?`. -/
def rOpt (r : Rx) : Rx := .rep r 0 (some 1)

/-- Greedy `+`. -/
def rPlus (r : Rx) : Rx := .rep r 1 none

/-- `{n}`. -/
def rExact (r : Rx) (n : Nat) : Rx := .rep r n (some n)

/-- `{m,n}`. -/
def rBetween (r : Rx) (m n : Nat) : Rx := .rep r m (some n)

/-- `{m,}`. -/
def rAtLeast (r : Rx) (m : Nat) : Rx := .rep r m none

/-- `\d`. -/
def rD : Rx := .cls [.digit]

/-- The word-boundary assertion `\b`. -/
def rB : Rx := .wb

/-- `ContentPattern` (`PiiPattern` in `patterns.ts`): name, description,
risk, and matching rule; `ic` records the regex's `i` flag. -/
structure PiiPattern where
  name : String
  description : String
  risk : RiskLevel
  ic : Bool
  rx : Rx

/-- `/\b[a-zA-Z0-9._%+\-]+@[a-zA-Z0-9.\-]+\.[a-zA-Z]{2,}\b/g` -/
def emailRx : Rx :=
  catL [rB,
    rPlus (.cls [.range 'a' 'z', .range 'A' 'Z', .range '0' '9',
      .single '.', .single '_', .single '%', .single '+', .single '-']),
    .ch '@',
    rPlus (.cls [.range 'a' 'z', .range 'A' 'Z', .range '0' '9',
      .single '.', .single '-']),
    .ch '.',
    rAtLeast (.cls [.range 'a' 'z', .range 'A' 'Z']) 2,
    rB]

/-- `/\b\d{3}[-\s]?\d{2}[-\s]?\d{4}\b/g` -/
def ssnRx : Rx :=
  catL [rB, rExact rD 3, rOpt (.cls [.single '-', .space]),
    rExact rD 2, rOpt (.cls [.single '-', .space]), rExact rD 4, rB]

/-- `/\b(?:4\d{12}(?:\d{3})?|5[1-5]\d{14}|3[47]\d{13}|6(?:011|5\d{2})\d{12}|\d{13,19})\b/g` -/
def cardRx : Rx :=
  catL [rB,
    altL [
      catL [.ch '4', rExact rD 12, rOpt (rExact rD 3)],
      catL [.ch '5', .cls [.range '1' '5'], rExact rD 14],
      catL [.ch '3', .cls [.single '4', .single '7'], rExact rD 13],
      catL [.ch '6', altL [lit ("011"), catL [.ch '5', rExact rD 2]], rExact rD 12],
      rBetween rD 13 19],
    rB]

/-- `/\b(?:\+1[-.\s]?)?\(?\d{3}\)?[-.\s]?\d{3}[-.\s]?\d{4}\b/g` -/
def phoneRx : Rx :=
  catL [rB,
    rOpt (catL [.ch '+', .ch '1', rOpt (.cls [.single '-', .single '.', .space])]),
    rOpt (.ch '('), rExact rD 3, rOpt (.ch ')'),
    rOpt (.cls [.single '-', .single '.', .space]),
    rExact rD 3,
    rOpt (.cls [.single '-', .single '.', .space]),
    rExact rD 4, rB]

/-- One octet of the IPv4 pattern: `(?:25[0-5]|2[0-4]\d|[01]?\d\d?)`. -/
def ipV4Octet : Rx :=
  altL [
    catL [lit ("25"), .cls [.range '0' '5']],
    catL [.ch '2', .cls [.range '0' '4'], rD],
    catL [rOpt (.cls [.single '0', .single '1']), rD, rOpt rD]]

/-- `/\b(?:(?:25[0-5]|2[0-4]\d|[01]?\d\d?)\.){3}(?:25[0-5]|2[0-4]\d|[01]?\d\d?)\b/g` -/
def ipv4Rx : Rx :=
  catL [rB, rExact (catL [ipV4Octet, .ch '.']) 3, ipV4Octet, rB]

/-- `/\b\d{5}(?:-\d{4})?\b/g` -/
def zipRx : Rx :=
  catL [rB, rExact rD 5, rOpt (catL [.ch '-', rExact rD 4]), rB]

/-- `/\b(?:0?[1-9]|1[0-2])[-\/](?:0?[1-9]|[12]\d|3[01])[-\/](?:19|20)\d{2}\b/g` -/
def dobRx : Rx :=
  catL [rB,
    altL [catL [rOpt (.ch '0'), .cls [.range '1' '9']],
      catL [.ch '1', .cls [.range '0' '2']]],
    .cls [.single '-', .single '/'],
    altL [catL [rOpt (.ch '0'), .cls [.range '1' '9']],
      catL [.cls [.single '1', .single '2'], rD],
      catL [.ch '3', .cls [.single '0', .single '1']]],
    .cls [.single '-', .single '/'],
    altL [lit ("19"), lit ("20")],
    rExact rD 2, rB]

/-- `/\b\d{1,5}\s+[A-Za-z0-9\s]{3,30}(?:St|Ave|Blvd|Dr|Rd|Ln|Way|Ct|Pl|Ter)\b\.?/gi` -/
def streetRx : Rx :=
  catL [rB, rBetween rD 1 5, rPlus (.cls [.space]),
    rBetween (.cls [.range 'A' 'Z', .range 'a' 'z', .range '0' '9', .space]) 3 30,
    altL [lit ("St"), lit ("Ave"), lit ("Blvd"), lit ("Dr"), lit ("Rd"),
      lit ("Ln"), lit ("Way"), lit ("Ct"), lit ("Pl"), lit ("Ter")],
    rB, rOpt (.ch '.')]

/-- `/\b[A-Z]{1,2}\d{6,9}\b/g` -/
def passportRx : Rx :=
  catL [rB, rBetween (.cls [.range 'A' 'Z']) 1 2, rBetween rD 6 9, rB]

/-- `/\b\d{9}\b/g` -/
def routingRx : Rx :=
  catL [rB, rExact rD 9, rB]

/-- `PII_PATTERNS` from `patterns.ts`, in catalog order. -/
def PII_PATTERNS : List PiiPattern :=
  [⟨"Email Address", "Standard email address format", .HIGH, false, emailRx⟩,
   ⟨"SSN (US Social Security Number)", "9-digit US SSN with or without dashes",
     .HIGH, false, ssnRx⟩,
   ⟨"Credit / Debit Card Number",
     "13–19 digit card numbers (Visa, MC, Amex, Discover patterns)",
     .HIGH, false, cardRx⟩,
   ⟨"US Phone Number", "US phone numbers in common formats", .HIGH, false, phoneRx⟩,
   ⟨"IPv4 Address", "IPv4 addresses (may indicate server logs or tracking data)",
     .MEDIUM, false, ipv4Rx⟩,
   ⟨"US ZIP Code", "5-digit or ZIP+4 format", .LOW, false, zipRx⟩,
   ⟨"Date of Birth Pattern", "Common date formats often used in DOB fields",
     .MEDIUM, false, dobRx⟩,
   ⟨"Street Address", "Common US street address patterns", .MEDIUM, true, streetRx⟩,
   ⟨"Passport / ID Number", "Common passport number formats (letter + digits)",
     .HIGH, false, passportRx⟩,
   ⟨"Bank Routing Number (ABA)", "9-digit US bank routing numbers",
     .HIGH, false, routingRx⟩]

/-- A column-name rule from `SUSPICIOUS_COLUMN_NAMES`: matching rule
(all rules carry the `i` flag), risk, and label. -/
structure NameRule where
  rx : Rx
  risk : RiskLevel
  label : String

/-- `\bw\b` wrapping of an alternation, shared by every column-name rule. -/
def nameAlt (alts : List Rx) : Rx := catL [rB, altL alts, rB]

/-- `SUSPICIOUS_COLUMN_NAMES` from `patterns.ts`, in catalog order.  The
original regex of each rule is listed here in order:
`/\b(email|e_mail|email_addr)\b/i`,
`/\b(ssn|social_security|social.security)\b/i`,
`/\b(phone|mobile|cell|telephone|tel)\b/i`,
`/\b(dob|date_of_birth|birth_date|birthdate)\b/i`,
`/\b(first.?name|last.?name|full.?name|fname|lname)\b/i`,
`/\b(address|street|city|zip|postal)\b/i`,
`/\b(ip.?addr|ip_address|ipv4|ipv6)\b/i`,
`/\b(passport|license|driver.?lic|dl_number)\b/i`,
`/\b(credit.?card|card.?num|cc_num|cvv|expiry)\b/i`,
`/\b(account.?num|bank.?account|routing)\b/i`,
`/\b(gender|sex|race|ethnicity|religion|nationality)\b/i`,
`/\b(salary|income|wage|compensation)\b/i`,
`/\b(diagnosis|condition|medication|health|medical|patient)\b/i`. -/
def SUSPICIOUS_COLUMN_NAMES : List NameRule :=
  [⟨nameAlt [lit ("email"), lit ("e_mail"), lit ("email_addr")], .HIGH, "Email column"⟩,
   ⟨nameAlt [lit ("ssn"), lit ("social_security"),
      catL [lit ("social"), .dot, lit ("security")]], .HIGH, "SSN column"⟩,
   ⟨nameAlt [lit ("phone"), lit ("mobile"), lit ("cell"), lit ("telephone"),
      lit ("tel")], .HIGH, "Phone column"⟩,
   ⟨nameAlt [lit ("dob"), lit ("date_of_birth"), lit ("birth_date"),
      lit ("birthdate")], .HIGH, "Date of birth column"⟩,
   ⟨nameAlt [catL [lit ("first"), rOpt .dot, lit ("name")],
      catL [lit ("last"), rOpt .dot, lit ("name")],
      catL [lit ("full"), rOpt .dot, lit ("name")],
      lit ("fname"), lit ("lname")], .HIGH, "Name column"⟩,
   ⟨nameAlt [lit ("address"), lit ("street"), lit ("city"), lit ("zip"),
      lit ("postal")], .MEDIUM, "Address column"⟩,
   ⟨nameAlt [catL [lit ("ip"), rOpt .dot, lit ("addr")], lit ("ip_address"),
      lit ("ipv4"), lit ("ipv6")], .MEDIUM, "IP address column"⟩,
   ⟨nameAlt [lit ("passport"), lit ("license"),
      catL [lit ("driver"), rOpt .dot, lit ("lic")], lit ("dl_number")],
      .HIGH, "ID document column"⟩,
   ⟨nameAlt [catL [lit ("credit"), rOpt .dot, lit ("card")],
      catL [lit ("card"), rOpt .dot, lit ("num")], lit ("cc_num"), lit ("cvv"),
      lit ("expiry")], .HIGH, "Payment card column"⟩,
   ⟨nameAlt [catL [lit ("account"), rOpt .dot, lit ("num")],
      catL [lit ("bank"), rOpt .dot, lit ("account")], lit ("routing")],
      .HIGH, "Bank account column"⟩,
   ⟨nameAlt [lit ("gender"), lit ("sex"), lit ("race"), lit ("ethnicity"),
      lit ("religion"), lit ("nationality")], .MEDIUM, "Sensitive demographic column"⟩,
   ⟨nameAlt [lit ("salary"), lit ("income"), lit ("wage"), lit ("compensation")],
      .MEDIUM, "Financial column"⟩,
   ⟨nameAlt [lit ("diagnosis"), lit ("condition"), lit ("medication"),
      lit ("health"), lit ("medical"), lit ("patient")], .HIGH, "Health data column"⟩]

/-! ### Column tables

`Record<string, string[]>` is modelled as an insertion-ordered association
list with unique keys; `Object.entries`/`Object.values` iteration order is
the list order. -/

/-- A column-oriented table: column name to ordered cell values. -/
abbrev ColumnTable := List (String × List String)

/-- `columns[h] = []` on a JS record: reset the entry if the key is
present (keeping its position), otherwise append a fresh entry. -/
def setEmpty (t : ColumnTable) (h : String) : ColumnTable :=
  if (t.lookup h).isSome then
    t.map (fun e => if e.1 = h then (e.1, ([] : List String)) else e)
  else t ++ [(h, [])]

/-- `columns[h].push(v)` for a key `h` known to be present: append `v` to
that entry's value list (no-op if the key is somehow absent, which the
callers never allow). -/
def pushVal (t : ColumnTable) (h : String) (v : String) : ColumnTable :=
  t.map (fun e => if e.1 = h then (e.1, e.2 ++ [v]) else e)

/-- `if (!columns[k]) columns[k] = []; columns[k].push(v)` from
`parseJSON`: create the column on first sight, then append. -/
def pushOrCreate (t : ColumnTable) (k : String) (v : String) : ColumnTable :=
  if (t.lookup k).isSome then pushVal t k v else t ++ [(k, [v])]

/-! ### CSV normalization (`parseCSV` in `scanner.ts`) -/

/-- Split a character list at every `\n` (the separator is dropped);
`cur` is the current piece, accumulated in reverse. -/
def splitNl (cur : List Char) : List Char → List (List Char)
  | [] => [cur.reverse]
  | c :: cs =>
    if c = Char.ofNat 10 then cur.reverse :: splitNl [] cs
    else splitNl (c :: cur) cs

/-- Strip one trailing `\r`, if present. -/
def stripCR (l : List Char) : List Char :=
  if l.getLast? = some (Char.ofNat 13) then l.dropLast else l

/-- Finish `split(/\r?\n/)`: every piece except the last was followed by a
`\n` in the input, so a `\r` at its end was part of the `\r\n` separator
and is stripped; a lone `\r` (not followed by `\n`) stays. -/
def joinLines : List (List Char) → List String
  | [] => []
  | [l] => [String.mk l]
  | l :: ls => String.mk (stripCR l) :: joinLines ls

/-- `content.split(/\r?\n/)`: the regex matches a `\n` together with an
immediately preceding `\r` (a lone `\r` is not a separator). -/
def splitLinesRN (s : String) : List String := joinLines (splitNl [] s.data)

/-- JavaScript `String.prototype.trim`: strip leading and trailing
whitespace (the ASCII whitespace characters; the inputs under study
contain no Unicode whitespace). -/
def trimJs (s : String) : String :=
  String.mk (((s.data.dropWhile isJsSpace).reverse.dropWhile isJsSpace).reverse)

/-- The body of `splitLine` from `parseCSV`: walk the characters with an
"inside quotes" flag; `"` toggles the flag (and is dropped), `,` outside
quotes emits the field accumulated so far after `trim`, any other character
is appended to the current field. -/
def splitLineGo (inQuote : Bool) (current : List Char) : List Char → List String
  | [] => [trimJs (String.mk current)]
  | c :: cs =>
    if c = Char.ofNat 34 then splitLineGo (!inQuote) current cs
    else if c = ',' && !inQuote then
      trimJs (String.mk current) :: splitLineGo inQuote [] cs
    else splitLineGo inQuote (current ++ [c]) cs

/-- `splitLine` from `parseCSV`. -/
def splitLine (line : String) : List String := splitLineGo false [] line.data

/-- `headers.forEach((h, idx) => { if (values[idx] !== undefined)
columns[h].push(values[idx]); })`, with `idx` starting from `i`. -/
def pushRowGo (values : List String) : ColumnTable → Nat → List String → ColumnTable
  | t, _, [] => t
  | t, i, h :: hs =>
    match values.get? i with
    | some v => pushRowGo values (pushVal t h v) (i + 1) hs
    | none => pushRowGo values t (i + 1) hs

/-- One data row's contribution to the column table. -/
def pushRow (t : ColumnTable) (headers values : List String) : ColumnTable :=
  pushRowGo values t 0 headers

/-- Building the column table from the header fields and the data rows:
first `for (const h of headers) columns[h] = [];`, then the row loop. -/
def mkColumns (headers : List String) (rows : List (List String)) : ColumnTable :=
  rows.foldl (fun t vals => pushRow t headers vals) (headers.foldl setEmpty [])

/-- `parseCSV` from `scanner.ts`. -/
def parseCSV (content : String) : ColumnTable :=
  let lines := (splitLinesRN content).filter (fun l => trimJs l ≠ "")
  match lines with
  | [] => []
  | header :: rest => mkColumns (splitLine header) (rest.map splitLine)

/-! ### JSON normalization (`parseJSON` in `scanner.ts`)

`JSON.parse` is a host builtin; it is modelled by `jsonParse`, a fueled
recursive-descent parser for the JSON grammar.  Numbers are kept as their
source lexeme (the claims never stringify non-trivial numbers).  JavaScript
dynamic behaviour that `parseJSON` relies on is modelled explicitly:
property access, `??`, truthiness, `typeof`, `Object.entries`, `String()`,
and the `TypeError`s thrown on `null` (caught by `scanContent`). -/

/-- A parsed JSON value. -/
inductive JsonVal where
  | null
  | bool (b : Bool)
  | num (lexeme : String)
  | str (s : String)
  | arr (xs : List JsonVal)
  | obj (fields : List (String × JsonVal))

/-- First binding of key `k` in an object's field list (the parser keeps
keys unique, last duplicate winning, as `JSON.parse` does). -/
def getField (fs : List (String × JsonVal)) (k : String) : Option JsonVal :=
  fs.lookup k

/-- Insert into an object under `JSON.parse` semantics: a repeated key
keeps its original position but takes the new value. -/
def objInsert (fs : List (String × JsonVal)) (k : String) (v : JsonVal) :
    List (String × JsonVal) :=
  if (fs.lookup k).isSome then fs.map (fun e => if e.1 = k then (e.1, v) else e)
  else fs ++ [(k, v)]

/-- The double-quote character. -/
def quoteC : Char := Char.ofNat 34

/-- The backslash character. -/
def backC : Char := Char.ofNat 92

/-- The opening-brace character. -/
def lbraceC : Char := Char.ofNat 123

/-- The closing-brace character. -/
def rbraceC : Char := Char.ofNat 125

/-- JSON insignificant whitespace. -/
def jsonWs (c : Char) : Bool :=
  c = ' ' || c = Char.ofNat 9 || c = Char.ofNat 10 || c = Char.ofNat 13

/-- Skip insignificant whitespace. -/
def skipWs (s : List Char) : List Char := s.dropWhile jsonWs

/-- Value of a hex digit, if any (48–57 are `0`–`9`, 97–102 are `a`–`f`,
65–70 are `A`–`F`). -/
def hexVal (c : Char) : Option Nat :=
  let n := c.toNat
  if 48 ≤ n ∧ n ≤ 57 then some (n - 48)
  else if 97 ≤ n ∧ n ≤ 102 then some (n - 87)
  else if 65 ≤ n ∧ n ≤ 70 then some (n - 55)
  else none

/-- The single-character JSON string escapes. -/
def escChar (c : Char) : Option Char :=
  if c = quoteC then some quoteC
  else if c = backC then some backC
  else if c = '/' then some '/'
  else if c = 'b' then some (Char.ofNat 8)
  else if c = 'f' then some (Char.ofNat 12)
  else if c = 'n' then some (Char.ofNat 10)
  else if c = 'r' then some (Char.ofNat 13)
  else if c = 't' then some (Char.ofNat 9)
  else none

/-- Parse the body of a JSON string (the opening quote already consumed);
the fuel is at least the input length, so it never runs out on the
call from `jsonParse`. -/
def pString (fuel : Nat) (acc : List Char) (s : List Char) : Option (String × List Char) :=
  match fuel, s with
  | _, [] => none
  | 0, _ => none
  | fuel + 1, c :: cs =>
    if c = quoteC then some (String.mk acc.reverse, cs)
    else if c = backC then
      match cs with
      | [] => none
      | e :: cs2 =>
        match escChar e with
        | some ec => pString fuel (ec :: acc) cs2
        | none =>
          if e = 'u' then
            match cs2 with
            | h1 :: h2 :: h3 :: h4 :: cs3 =>
              match hexVal h1, hexVal h2, hexVal h3, hexVal h4 with
              | some a, some b, some c3, some d =>
                pString fuel (Char.ofNat (((a * 16 + b) * 16 + c3) * 16 + d) :: acc) cs3
              | _, _, _, _ => none
            | _ => none
          else none
    else if c.toNat < 32 then none
    else pString fuel (c :: acc) cs

/-- Parse a JSON number lexeme, returning it as written. -/
def pNumber (s : List Char) : Option (String × List Char) :=
  let isD := fun c => '0' ≤ c && c ≤ '9'
  let (sign, s1) := if s.head? = some '-' then ([('-' : Char)], s.drop 1) else ([], s)
  let intPart := s1.takeWhile isD
  let s2 := s1.dropWhile isD
  if intPart = [] then none
  else if intPart.length > 1 && intPart.head? = some '0' then none
  else
    let (frac, s3) :=
      if s2.head? = some '.' then
        let ds := (s2.drop 1).takeWhile isD
        (if ds = [] then none else some ('.' :: ds, (s2.drop 1).dropWhile isD))
          |>.getD ([], s2)
      else ([], s2)
    if s2.head? = some '.' && frac = [] then none
    else
      let (expPart, s4) :=
        match s3.head? with
        | some e =>
          if e = 'e' || e = 'E' then
            let rest := s3.drop 1
            let (sgn, rest2) :=
              if rest.head? = some '+' || rest.head? = some '-' then
                (rest.take 1, rest.drop 1)
              else ([], rest)
            let ds := rest2.takeWhile isD
            if ds = [] then ([], s3)
            else (e :: (sgn ++ ds), rest2.dropWhile isD)
          else ([], s3)
        | none => ([], s3)
      some (String.mk (sign ++ intPart ++ frac ++ expPart), s4)

mutual

/-- Parse one JSON value (after skipping leading whitespace). -/
def pVal : Nat → List Char → Option (JsonVal × List Char)
  | 0, _ => none
  | fuel + 1, s =>
    let s := skipWs s
    match s with
    | [] => none
    | c :: cs =>
      if c = quoteC then (pString (cs.length + 1) [] cs).map (fun r => (.str r.1, r.2))
      else if c = '[' then pArrItems fuel cs true
      else if c = lbraceC then pObjItems fuel cs true []
      else if c = 'n' then
        if List.isPrefixOf (("null" : String).data) s then some (.null, s.drop 4)
        else none
      else if c = 't' then
        if List.isPrefixOf (("true" : String).data) s then some (.bool true, s.drop 4)
        else none
      else if c = 'f' then
        if List.isPrefixOf (("false" : String).data) s then some (.bool false, s.drop 5)
        else none
      else if c = '-' || ('0' ≤ c && c ≤ '9') then
        (pNumber s).map (fun r => (.num r.1, r.2))
      else none

/-- Parse array items after `[`; `first` is true before the first item.
The accumulated items are returned in order. -/
def pArrItems : Nat → List Char → Bool → Option (JsonVal × List Char)
  | 0, _, _ => none
  | fuel + 1, s, first =>
    let s := skipWs s
    match s with
    | [] => none
    | c :: cs =>
      if c = ']' then some (.arr [], cs)
      else
        let elemInput := if first then c :: cs else (if c = ',' then cs else [])
        if !first && c ≠ ',' then none
        else
          match pVal fuel elemInput with
          | none => none
          | some (v, rest) =>
            match pArrItems fuel rest false with
            | some (.arr vs, rest2) => some (.arr (v :: vs), rest2)
            | _ => none

/-- Parse object members after the opening brace; `first` is true before
the first member; `acc` is the members parsed so far. -/
def pObjItems : Nat → List Char → Bool → List (String × JsonVal) →
    Option (JsonVal × List Char)
  | 0, _, _, _ => none
  | fuel + 1, s, first, acc =>
    let s := skipWs s
    match s with
    | [] => none
    | c :: cs =>
      if c = rbraceC then some (.obj acc, cs)
      else
        let memInput := if first then c :: cs else (if c = ',' then skipWs cs else [])
        if !first && c ≠ ',' then none
        else
          match memInput with
          | k :: ks =>
            if k = quoteC then
              match pString (ks.length + 1) [] ks with
              | none => none
              | some (key, rest) =>
                match skipWs rest with
                | ':' :: rest2 =>
                  match pVal fuel rest2 with
                  | none => none
                  | some (v, rest3) => pObjItems fuel rest3 false (objInsert acc key v)
                | _ => none
            else none
          | [] => none

end

/-- `JSON.parse(content)`: parse a single JSON value with nothing but
whitespace after it. -/
def jsonParse (content : String) : Option JsonVal :=
  match pVal (content.length * 2 + 16) content.data with
  | some (v, rest) => if skipWs rest = [] then some v else none
  | none => none

mutual

/-- `String(v)` for a parsed JSON value: `null` renders as "null" (the
caller applies `?? ""` first), booleans as `true`/`false`, numbers as their
lexeme, strings as themselves, arrays as their comma-joined elements, and
plain objects as `[object Object]`. -/
def jsString : JsonVal → String
  | .null => "null"
  | .bool true => "true"
  | .bool false => "false"
  | .num lexeme => lexeme
  | .str s => s
  | .arr xs => String.intercalate ("," : String) (jsStringList xs)
  | .obj _ => "[object Object]"

/-- Elementwise rendering used by array `toString`: `null` (and holes)
render as the empty string. -/
def jsStringList : List JsonVal → List String
  | [] => []
  | v :: vs =>
    (match v with
      | .null => ""
      | w => jsString w) :: jsStringList vs

end

/-- `String(v ?? "")` from the column fill loop: `null` becomes "". -/
def jsStringOrEmpty (v : JsonVal) : String :=
  match v with
  | .null => ""
  | w => jsString w

/-- JavaScript truthiness of a JSON value (for `!rows.length`): a number
is falsy iff its mantissa is all zeroes. -/
def jsTruthy : JsonVal → Bool
  | .null => false
  | .bool b => b
  | .num lexeme =>
      (lexeme.data.takeWhile (fun c => c ≠ 'e' && c ≠ 'E')).any
        (fun c => '1' ≤ c && c ≤ '9')
  | .str s => s ≠ ""
  | .arr _ => true
  | .obj _ => true

/-- Property access `v.k` on a JSON value, as `Option` (`none` models
`undefined`).  Plain objects expose their fields; nothing else relevant
here has the accessed properties (`data`, `rows`). -/
def jsProp (v : JsonVal) (k : String) : Option JsonVal :=
  match v with
  | .obj fs => getField fs k
  | _ => none

/-- Truthiness of `rows.length`: arrays and strings have their numeric
length, plain objects only what a `length` field supplies, primitives
`undefined` (falsy). -/
def jsLengthTruthy : JsonVal → Bool
  | .arr xs => xs.length ≠ 0
  | .str s => s ≠ ""
  | .obj fs =>
    match getField fs "length" with
    | some v => jsTruthy v
    | none => false
  | _ => false

/-- Index access `rows[0]` (`none` models `undefined`). -/
def jsIndex0 : JsonVal → Option JsonVal
  | .arr xs => xs.head?
  | .str s =>
    match s.data with
    | [] => none
    | c :: _ => some (.str (String.mk [c]))
  | .obj fs => getField fs "0"
  | _ => none

/-- `typeof v === "object"`: true for `null`, arrays and objects. -/
def jsTypeofObject : JsonVal → Bool
  | .null => true
  | .arr _ => true
  | .obj _ => true
  | _ => false

/-- `Object.entries(row)`: throws a `TypeError` on `null` (modelled as
`Except.error`), lists index entries for arrays and strings, fields for
objects, and nothing for the remaining primitives. -/
def jsEntries : JsonVal → Except Unit (List (String × JsonVal))
  | .null => .error ()
  | .obj fs => .ok fs
  | .arr xs => .ok (xs.enum.map (fun p => (toString p.1, p.2)))
  | .str s => .ok (s.data.enum.map (fun p => (toString p.1, .str (String.mk [p.2]))))
  | _ => .ok []

/-- `Array.isArray(data) ? data : data.data ?? data.rows ?? [data]`:
resolve the candidate row sequence.  Accessing `.data` on `null` throws a
`TypeError` (`Except.error`); `??` skips `null`/`undefined`. -/
def resolveRows (data : JsonVal) : Except Unit JsonVal :=
  match data with
  | .arr xs => .ok (.arr xs)
  | .null => .error ()
  | v =>
    match jsProp v "data" with
    | some .null | none =>
      match jsProp v "rows" with
      | some .null | none => .ok (.arr [v])
      | some w => .ok w
    | some w => .ok w

/-- The column fill loop of `parseJSON`, per row:
`for (const [k, v] of Object.entries(row)) { if (!columns[k]) columns[k] = [];
columns[k].push(String(v ?? "")); }`. -/
def fillRow (t : ColumnTable) (row : JsonVal) : Except Unit ColumnTable :=
  match jsEntries row with
  | .error _ => .error ()
  | .ok entries =>
    .ok (entries.foldl (fun t2 e => pushOrCreate t2 e.1 (jsStringOrEmpty e.2)) t)

/-- The row loop of `parseJSON`. -/
def fillRows (t : ColumnTable) : List JsonVal → Except Unit ColumnTable
  | [] => .ok t
  | row :: rest =>
    match fillRow t row with
    | .error _ => .error ()
    | .ok t2 => fillRows t2 rest

/-- `parseJSON` after `JSON.parse` succeeded: resolve the row sequence,
return an empty table when `!rows.length || typeof rows[0] !== "object"`,
and otherwise iterate the rows (`for...of` throws on a non-iterable
non-array, and `Object.entries` throws on a `null` row — both modelled as
`Except.error`, caught by `scanContent`). -/
def parseJSONVal (data : JsonVal) : Except Unit ColumnTable :=
  match resolveRows data with
  | .error _ => .error ()
  | .ok rows =>
    if !jsLengthTruthy rows then .ok []
    else
      match jsIndex0 rows with
      | none => .ok []
      | some first =>
        if !jsTypeofObject first then .ok []
        else
          match rows with
          | .arr xs => fillRows [] xs
          | _ => .error ()

/-- `parseJSON` from `scanner.ts`, including the `JSON.parse` step; every
JavaScript exception is `Except.error`. -/
def parseJSONTable (content : String) : Except Unit ColumnTable :=
  match jsonParse content with
  | none => .error ()
  | some data => parseJSONVal data

/-! ### The scan engine (`scanColumns` / `scanContent`) -/

/-- The `source` tag of a finding. -/
inductive Source where
  | content
  | column_name
deriving DecidableEq, Repr

/-- `ColumnFinding` from `scanner.ts`. -/
structure ColumnFinding where
  column : String
  patternName : String
  risk : RiskLevel
  matchCount : Nat
  sampleValues : List String
  source : Source
deriving DecidableEq, Repr

/-- `ScanResult` from `scanner.ts`. -/
structure ScanResult where
  file : String
  rowsScanned : Nat
  columnsScanned : Nat
  findings : List ColumnFinding
  overallRisk : RiskLevel
  summary : String
deriving DecidableEq, Repr

/-- The column-name pass for one column: try `SUSPICIOUS_COLUMN_NAMES` in
catalog order; the first rule whose pattern tests true against the column
name emits one finding (matchCount is the column's row count, no samples)
and the loop breaks. -/
def nameFindings (column : String) (rowCount : Nat) : List NameRule → List ColumnFinding
  | [] => []
  | r :: rs =>
    if rxTest true r.rx column then
      [⟨column, r.label, r.risk, rowCount, [], .column_name⟩]
    else nameFindings column rowCount rs

/-- The content pass for one column: for each pattern in catalog order,
collect all matches in the blob; a nonempty match list emits one finding
whose samples are the first 3 matches, redacted. -/
def contentFindings (column : String) (blob : String) : List PiiPattern → List ColumnFinding
  | [] => []
  | p :: ps =>
    (if (matchAllRx p.ic p.rx blob).length > 0 then
        [⟨column, p.name, p.risk, (matchAllRx p.ic p.rx blob).length,
          ((matchAllRx p.ic p.rx blob).take 3).map redact, .content⟩]
      else [])
      ++ contentFindings column blob ps

/-- `values.slice(0, 200).join("\n")`: the sampled blob of a column. -/
def sampleBlob (values : List String) : String :=
  String.intercalate (String.mk [Char.ofNat 10]) (values.take 200)

/-- All findings for one column: the column-name pass, then the content
pass over the sampled blob. -/
def columnFindings (column : String) (values : List String) : List ColumnFinding :=
  nameFindings column values.length SUSPICIOUS_COLUMN_NAMES
    ++ contentFindings column (sampleBlob values) PII_PATTERNS

/-- `new Set(findings.map((f) => f.column)).size`: the number of distinct
columns with findings (only the cardinality of the set is used). -/
def distinctColumnCount (findings : List ColumnFinding) : Nat :=
  ((findings.map (fun f => f.column)).dedup).length

/-- The summary string of `scanColumns`. -/
def mkSummary (findings : List ColumnFinding) : String :=
  if findings.isEmpty then "No PII patterns detected. Review manually before use."
  else
    toString findings.length ++ " potential PII finding(s) across "
      ++ toString (distinctColumnCount findings) ++ " column(s). "
      ++ (if (findings.filter (fun f => f.risk = .HIGH)).length > 0 then
            toString (findings.filter (fun f => f.risk = .HIGH)).length
              ++ " HIGH risk. "
          else "")
      ++ "Do not use this dataset in lower environments without synthetic replacement."

/-- `scanColumns` from `scanner.ts`. -/
def scanColumns (columns : ColumnTable) (filePath : String) : ScanResult :=
  let totalRows := columns.foldl (fun acc e => max acc e.2.length) 0
  let findings := (columns.map (fun e => columnFindings e.1 e.2)).flatten
  let overallRisk :=
    if findings.isEmpty then RiskLevel.LOW
    else findings.foldl (fun acc f => maxRisk acc f.risk) RiskLevel.LOW
  { file := filePath
    rowsScanned := totalRows
    columnsScanned := columns.length
    findings := findings
    overallRisk := overallRisk
    summary := mkSummary findings }

/-- `filePath.endsWith(".json")`: does the string end with the given
suffix (JavaScript `String.prototype.endsWith`)? -/
def endsWithJs (s suffix : String) : Bool :=
  List.isSuffixOf suffix.data s.data

/-- `scanContent` from `scanner.ts`: dispatch on the `.json` suffix; a
failed JSON parse (any JavaScript exception inside `parseJSON`) falls back
to a single synthetic `_text` column holding `content.split("\n")`. -/
def scanContent (content filePath : String) : ScanResult :=
  if endsWithJs filePath (".json") then
    match parseJSONTable content with
    | .ok columns => scanColumns columns filePath
    | .error _ =>
      scanColumns [(("_text" : String), content.splitOn (String.mk [Char.ofNat 10]))]
        filePath
  else scanColumns (parseCSV content) filePath

/-! ## Theorems -/

/-! ### Helper lemmas -/

theorem data_append (a b : String) : (a ++ b).data = a.data ++ b.data := by
  cases a; cases b; rfl

theorem length_mk (l : List Char) : (String.mk l).length = l.length := rfl

theorem length_eq_data_length (s : String) : s.length = s.data.length := rfl

/-! ### C3: redaction -/

/-- C3.  For every string `value` of length at most 4, `redact value` is
exactly `"****"`; for every `value` of length `L > 4`, `redact value` has
length `4 + min (L - 4) 8`, begins with the first 2 characters of `value`,
ends with the last 2 characters of `value`, and its middle consists solely
of `'*'` characters. -/
theorem redact_spec :
    (∀ value : String, value.length ≤ 4 → redact value = "****") ∧
    (∀ value : String, 4 < value.length →
      (redact value).length = 4 + min (value.length - 4) 8 ∧
      (redact value).data.take 2 = value.data.take 2 ∧
      (redact value).data.drop ((redact value).length - 2)
        = value.data.drop (value.length - 2) ∧
      ∀ c ∈ ((redact value).data.drop 2).take ((redact value).length - 4),
        c = '*') := by
  constructor
  · intro value h
    simp [redact, h]
  · intro value h
    have hnot : ¬ value.length ≤ 4 := by omega
    have hdata : (redact value).data
        = value.data.take 2
            ++ (List.replicate (min (value.length - 4) 8) '*'
                  ++ value.data.drop (value.length - 2)) := by
      simp [redact, hnot, data_append]
    have hlen2 : (value.data.take 2).length = 2 := by
      rw [List.length_take]
      have : value.data.length = value.length := rfl
      omega
    have hlendrop : (value.data.drop (value.length - 2)).length = 2 := by
      rw [List.length_drop]
      have : value.data.length = value.length := rfl
      omega
    have hlen : (redact value).length = 4 + min (value.length - 4) 8 := by
      rw [length_eq_data_length, hdata]
      simp [List.length_append, hlen2, hlendrop]
      omega
    refine ⟨hlen, ?_, ?_, ?_⟩
    · rw [hdata, List.take_append_of_le_length (by omega), List.take_take]
      simp
    · rw [hdata, hlen, ← List.append_assoc]
      exact List.drop_left' (by simp [hlen2]; omega)
    · intro c hc
      rw [hdata, hlen, List.drop_left' hlen2,
        List.take_left' (by simp)] at hc
      exact (List.mem_replicate.mp hc).2

/-- Witness for C3 at concrete inputs. -/
theorem redact_spec_witness :
    redact ("abc") = "****" ∧
      (redact ("abcdef")).length = 4 + min ((("abcdef" : String)).length - 4) 8 :=
  ⟨redact_spec.1 ("abc") (by decide), (redact_spec.2 ("abcdef") (by decide)).1⟩

/-! ### C8: column-name-only detection -/

/-- C8.  Scanning a table containing one column literally named `ssn`
with value sequence `["123", "456"]` yields exactly one finding in the
whole `ScanResult`: it has `source = column_name`, `risk = HIGH`
(label `SSN column`), and `matchCount = 2`;  no content pattern produces
a finding for these values. -/
theorem scan_ssn_column_single_finding :
    (scanColumns [(("ssn" : String), ["123", "456"])] ("data.csv")).findings
      = [⟨"ssn", "SSN column", .HIGH, 2, [], .column_name⟩] := by
  decide

/-! ### C9: determinism -/

/-- C9.  Scanning is deterministic: in this (pure) model, invoking
`scanColumns`, `scanContent`, or any pattern's matcher twice on the same
input yields identical results; concretely, scanning a column with value
`"Contact: alice@example.com"` twice gives the identical single Email
finding with `matchCount = 1` and the identical redacted sample. -/
theorem scan_deterministic :
    (∀ (columns : ColumnTable) (filePath : String),
      scanColumns columns filePath = scanColumns columns filePath) ∧
    (∀ (content filePath : String),
      scanContent content filePath = scanContent content filePath) ∧
    (∀ (ic : Bool) (rx : Rx) (blob : String),
      matchAllRx ic rx blob = matchAllRx ic rx blob) ∧
    ((scanColumns [(("c" : String), ["Contact: alice@example.com"])] ("f")).findings
        = [⟨"c", "Email Address", .HIGH, 1, ["al********om"], .content⟩] ∧
      (scanColumns [(("c" : String), ["Contact: alice@example.com"])] ("f")).findings
        = [⟨"c", "Email Address", .HIGH, 1, ["al********om"], .content⟩]) := by
  refine ⟨fun _ _ => rfl, fun _ _ => rfl, fun _ _ _ => rfl, ?_, ?_⟩ <;> decide

/-! ### C1: the overall-risk invariant -/

theorem riskLe_refl (a : RiskLevel) : riskLe a a := Nat.le_refl _

theorem riskLe_trans {a b c : RiskLevel} (h1 : riskLe a b) (h2 : riskLe b c) :
    riskLe a c := Nat.le_trans h1 h2

theorem riskLe_LOW_iff (a : RiskLevel) : riskLe a .LOW ↔ a = .LOW := by
  cases a <;> simp [riskLe, riskIndex]

theorem maxRisk_cases (a b : RiskLevel) : maxRisk a b = a ∨ maxRisk a b = b := by
  unfold maxRisk; split <;> simp

theorem riskLe_maxRisk_left (a b : RiskLevel) : riskLe a (maxRisk a b) := by
  unfold maxRisk; split
  · exact riskLe_refl a
  · unfold riskLe; omega

theorem riskLe_maxRisk_right (a b : RiskLevel) : riskLe b (maxRisk a b) := by
  unfold maxRisk; split
  · exact ‹_›
  · exact riskLe_refl b

/-- The fold computing `overallRisk` over a finding list, as in
`findings.reduce((acc, f) => maxRisk(acc, f.risk), "LOW")` with a general
accumulator. -/
theorem foldl_maxRisk_spec (l : List ColumnFinding) :
    ∀ init : RiskLevel,
      riskLe init (l.foldl (fun acc f => maxRisk acc f.risk) init) ∧
      (∀ f ∈ l, riskLe f.risk (l.foldl (fun acc f => maxRisk acc f.risk) init)) ∧
      ((l.foldl (fun acc f => maxRisk acc f.risk) init) = init ∨
        ∃ f ∈ l, (l.foldl (fun acc f => maxRisk acc f.risk) init) = f.risk) := by
  induction l with
  | nil => exact fun init => ⟨riskLe_refl init, by simp, Or.inl rfl⟩
  | cons g gs ih =>
    intro init
    obtain ⟨h1, h2, h3⟩ := ih (maxRisk init g.risk)
    refine ⟨riskLe_trans (riskLe_maxRisk_left init g.risk) h1, ?_, ?_⟩
    · intro f hf
      rcases List.mem_cons.mp hf with hfg | hft
      · subst hfg
        exact riskLe_trans (riskLe_maxRisk_right init f.risk) h1
      · exact h2 f hft
    · rcases h3 with heq | ⟨f, hf, heq⟩
      · rcases maxRisk_cases init g.risk with hm | hm
        · exact Or.inl (by simp [List.foldl_cons]; rw [heq, hm])
        · exact Or.inr ⟨g, List.mem_cons_self g gs, by simp [List.foldl_cons]; rw [heq, hm]⟩
      · exact Or.inr ⟨f, List.mem_cons_of_mem g hf, by simp [List.foldl_cons]; exact heq⟩

/-- `overallRisk` of any `scanColumns` result is an upper bound of the
findings' risks and is attained by one of them (or is `LOW` when there
are none). -/
theorem scanColumns_overallRisk_bound (columns : ColumnTable) (filePath : String) :
    (∀ f ∈ (scanColumns columns filePath).findings,
      riskLe f.risk (scanColumns columns filePath).overallRisk) ∧
    ((scanColumns columns filePath).findings = [] →
      (scanColumns columns filePath).overallRisk = .LOW) ∧
    ((scanColumns columns filePath).findings ≠ [] →
      ∃ f ∈ (scanColumns columns filePath).findings,
        (scanColumns columns filePath).overallRisk = f.risk) := by
  set fs := (columns.map (fun e => columnFindings e.1 e.2)).flatten with hfs
  have hfind : (scanColumns columns filePath).findings = fs := rfl
  by_cases hemp : fs.isEmpty
  · have hnil : fs = [] := List.isEmpty_iff.mp hemp
    have hrisk : (scanColumns columns filePath).overallRisk = .LOW := by
      simp [scanColumns, ← hfs, hemp]
    refine ⟨?_, fun _ => hrisk, fun hne => absurd (hfind ▸ hnil) hne⟩
    intro f hf
    rw [hfind, hnil] at hf
    exact absurd hf (List.not_mem_nil f)
  · have hrisk : (scanColumns columns filePath).overallRisk
        = fs.foldl (fun acc f => maxRisk acc f.risk) .LOW := by
      simp [scanColumns, ← hfs, hemp]
    obtain ⟨_, h2, h3⟩ := foldl_maxRisk_spec fs RiskLevel.LOW
    refine ⟨?_, ?_, ?_⟩
    · intro f hf
      rw [hrisk]
      exact h2 f (hfind ▸ hf)
    · intro hnil
      rw [hfind] at hnil
      simp [hnil] at hemp
    · intro hne
      rw [hfind] at hne
      rcases h3 with heq | ⟨f, hf, heq⟩
      · obtain ⟨f, hf⟩ := List.exists_mem_of_ne_nil fs hne
        have hle := h2 f hf
        rw [heq] at hle
        have hfl : f.risk = .LOW := (riskLe_LOW_iff f.risk).mp hle
        exact ⟨f, hfind ▸ hf, by rw [hrisk, heq, hfl]⟩
      · exact ⟨f, hfind ▸ hf, hrisk ▸ heq⟩

/-- The overall-risk invariant of a `ScanResult`: `overallRisk` is `LOW`
iff there are no findings or all findings are `LOW`, and otherwise it is
the maximum risk over the findings (an upper bound that is attained). -/
abbrev RiskInvariant (r : ScanResult) : Prop :=
  (r.overallRisk = .LOW ↔ (r.findings = [] ∨ ∀ f ∈ r.findings, f.risk = .LOW)) ∧
  (∀ f ∈ r.findings, riskLe f.risk r.overallRisk) ∧
  (r.findings ≠ [] → ∃ f ∈ r.findings, r.overallRisk = f.risk)

theorem riskInvariant_scanColumns (columns : ColumnTable) (filePath : String) :
    RiskInvariant (scanColumns columns filePath) := by
  obtain ⟨hub, hemp, hatt⟩ := scanColumns_overallRisk_bound columns filePath
  refine ⟨⟨?_, ?_⟩, hub, hatt⟩
  · intro hlow
    right
    intro f hf
    have hle := hub f hf
    rw [hlow] at hle
    exact (riskLe_LOW_iff f.risk).mp hle
  · intro h
    rcases h with hnil | hall
    · exact hemp hnil
    · by_cases hnil : (scanColumns columns filePath).findings = []
      · exact hemp hnil
      · obtain ⟨f, hf, heq⟩ := hatt hnil
        rw [heq, hall f hf]

/-- `scanContent` always returns the result of `scanColumns` on some
table (whichever branch of the dispatch runs). -/
theorem scanContent_eq_scanColumns (content filePath : String) :
    ∃ t, scanContent content filePath = scanColumns t filePath := by
  unfold scanContent
  split
  · split
    · exact ⟨_, rfl⟩
    · exact ⟨_, rfl⟩
  · exact ⟨_, rfl⟩

/-- C1.  For every column table and every raw-text input, `scanColumns`
and `scanContent` return a `ScanResult` whose `overallRisk` is `LOW` if
and only if the findings sequence is empty or every finding in it has risk
`LOW`; otherwise `overallRisk` is the maximum risk level (under
`LOW < MEDIUM < HIGH`) over all findings — an upper bound of all finding
risks that is attained by some finding. -/
theorem overallRisk_invariant :
    (∀ (columns : ColumnTable) (filePath : String),
      RiskInvariant (scanColumns columns filePath)) ∧
    (∀ (content filePath : String),
      RiskInvariant (scanContent content filePath)) := by
  refine ⟨riskInvariant_scanColumns, ?_⟩
  intro content filePath
  obtain ⟨t, ht⟩ := scanContent_eq_scanColumns content filePath
  rw [ht]
  exact riskInvariant_scanColumns t filePath

/-- Witness for C1: at the concrete `ssn` table the overall risk is
attained by a finding. -/
theorem overallRisk_invariant_witness :
    ∃ f ∈ (scanColumns [(("ssn" : String), ["123", "456"])] ("f")).findings,
      (scanColumns [(("ssn" : String), ["123", "456"])] ("f")).overallRisk = f.risk :=
  (overallRisk_invariant.1 [(("ssn" : String), ["123", "456"])] ("f")).2.2 (by decide)

/-! ### C2: total error handling in `scanContent` -/

/-- C2.  `scanContent` never propagates an error and always returns a
complete `ScanResult`: on an empty table the result has `rowsScanned = 0`,
`columnsScanned = 0`, empty findings and `overallRisk LOW`; and whenever
the path hint ends in `.json` and the raw text is not parseable as JSON
(any exception inside `parseJSON`, modelled as `Except.error`), the scan
degrades to a single synthetic column named `_text` holding the raw
text's lines instead of propagating the error. -/
theorem scanContent_error_handling :
    (∀ filePath : String,
      scanColumns [] filePath =
        { file := filePath, rowsScanned := 0, columnsScanned := 0,
          findings := [], overallRisk := .LOW,
          summary := "No PII patterns detected. Review manually before use." }) ∧
    (∀ content filePath : String,
      endsWithJs filePath (".json") = true →
      parseJSONTable content = .error () →
      scanContent content filePath =
        scanColumns
          [(("_text" : String), content.splitOn (String.mk [Char.ofNat 10]))]
          filePath) := by
  constructor
  · intro filePath
    rfl
  · intro content filePath h1 h2
    simp only [scanContent, h1, if_true, h2]

/-- Witness for C2 at the malformed input `"{not valid"` with hint
`"bad.json"`. -/
theorem scanContent_error_handling_witness :
    endsWithJs ("bad.json") (".json") = true ∧
    parseJSONTable ("\x7bnot valid") = .error () ∧
    scanContent ("\x7bnot valid") ("bad.json") =
      scanColumns
        [(("_text" : String),
          ("\x7bnot valid" : String).splitOn (String.mk [Char.ofNat 10]))]
        ("bad.json") :=
  ⟨by decide, by rfl,
    scanContent_error_handling.2 ("\x7bnot valid") ("bad.json") (by decide) (by rfl)⟩

/-! ### C4: the column-name pass emits at most one finding, first rule wins -/

theorem nameFindings_eq_find (column : String) (n : Nat) :
    ∀ rules : List NameRule,
      nameFindings column n rules =
        match rules.find? (fun r => rxTest true r.rx column) with
        | some r => [⟨column, r.label, r.risk, n, [], .column_name⟩]
        | none => [] := by
  intro rules
  induction rules with
  | nil => rfl
  | cons r rs ih =>
    by_cases h : rxTest true r.rx column
    · simp [nameFindings, List.find?_cons, h]
    · simp only [nameFindings, List.find?_cons] at *
      simp [h, ih]

theorem contentFindings_source (column : String) (blob : String) :
    ∀ ps : List PiiPattern, ∀ f ∈ contentFindings column blob ps,
      f.source = .content := by
  intro ps
  induction ps with
  | nil => simp [contentFindings]
  | cons p rest ih =>
    intro f hf
    unfold contentFindings at hf
    rcases List.mem_append.mp hf with hl | hr
    · split at hl
      · rw [List.mem_singleton] at hl
        subst hl
        rfl
      · exact absurd hl (List.not_mem_nil f)
    · exact ih f hr

theorem filter_contentFindings_column_name (column : String) (blob : String)
    (ps : List PiiPattern) :
    (contentFindings column blob ps).filter
        (fun f => decide (f.source = .column_name)) = [] := by
  rw [List.filter_eq_nil_iff]
  intro f hf
  have := contentFindings_source column blob ps f hf
  simp [this]

theorem filter_nameFindings_column_name (column : String) (n : Nat)
    (rules : List NameRule) :
    (nameFindings column n rules).filter
        (fun f => decide (f.source = .column_name))
      = nameFindings column n rules := by
  induction rules with
  | nil => rfl
  | cons r rs ih =>
    unfold nameFindings
    split
    · rfl
    · exact ih

/-- C4.  For every column of every scanned table, the column-name pass
emits at most one finding with `source = column_name`: the rules of
`SUSPICIOUS_COLUMN_NAMES` are tried in catalog order, the first rule whose
pattern matches the column name produces the finding — with `patternName`
the rule's label, `risk` the rule's risk, `matchCount` the full length of
the column's value sequence and empty `sampleValues` — and no later rule
contributes (`List.find?` semantics); moreover the findings of
`scanColumns` are exactly the per-column findings in column order. -/
theorem column_name_pass_spec :
    (∀ (column : String) (values : List String),
      (columnFindings column values).filter
          (fun f => decide (f.source = .column_name))
        = match SUSPICIOUS_COLUMN_NAMES.find? (fun r => rxTest true r.rx column) with
          | some r => [⟨column, r.label, r.risk, values.length, [], .column_name⟩]
          | none => []) ∧
    (∀ (columns : ColumnTable) (filePath : String),
      (scanColumns columns filePath).findings
        = (columns.map (fun e => columnFindings e.1 e.2)).flatten) := by
  constructor
  · intro column values
    unfold columnFindings
    rw [List.filter_append, filter_contentFindings_column_name,
      filter_nameFindings_column_name, List.append_nil,
      nameFindings_eq_find]
  · intro columns filePath
    rfl

/-! ### C5: the 200-value sampling cap of the content pass -/

set_option maxRecDepth 1000000 in
set_option maxHeartbeats 4000000 in
/-- C5.  The content pass computes its findings (hence each content
finding's `matchCount`) from only the first 200 values of the column,
joined by newlines; in particular a column of 500 identical email-bearing
values yields a single Email Address finding with `matchCount = 200`,
not 500. -/
theorem content_sampling_cap :
    (∀ (column : String) (values : List String),
      contentFindings column (sampleBlob values) PII_PATTERNS
        = contentFindings column (sampleBlob (values.take 200)) PII_PATTERNS) ∧
    (scanColumns [(("notes" : String), List.replicate 500 ("a@b.co"))] ("f")).findings
      = [⟨"notes", "Email Address", .HIGH, 200,
          ["a@**co", "a@**co", "a@**co"], .content⟩] := by
  constructor
  · intro column values
    have hblob : sampleBlob (values.take 200) = sampleBlob values := by
      unfold sampleBlob
      rw [List.take_take]
      simp
    rw [hblob]
  · decide

/-! ### C6: CSV normalization -/

/-- The claim's description of field splitting, reorganized: split the
line at the commas that lie outside double quotes (a `"` toggles the
inside-quotes state and stays in the raw field for now), then strip the
quote characters from each raw field and trim it.  This trims whitespace
at the edges of the unquoted field — including whitespace that lay inside
quotes — which is where it deviates from the claim's wording. -/
def splitTopRaw (inQuote : Bool) (cur : List Char) : List Char → List (List Char)
  | [] => [cur]
  | c :: cs =>
    if c = Char.ofNat 34 then splitTopRaw (!inQuote) (cur ++ [c]) cs
    else if c = ',' && !inQuote then cur :: splitTopRaw inQuote [] cs
    else splitTopRaw inQuote (cur ++ [c]) cs

/-- Field splitting as described above: split at top-level commas, then
strip quotes and trim each field. -/
def specSplitFields (line : String) : List String :=
  (splitTopRaw false [] line.data).map
    (fun f => trimJs (String.mk (f.filter (fun c => c ≠ Char.ofNat 34))))

theorem splitLineGo_eq_splitTopRaw :
    ∀ (cs : List Char) (inQuote : Bool) (cur : List Char),
      splitLineGo inQuote (cur.filter (fun c => c ≠ Char.ofNat 34)) cs
        = (splitTopRaw inQuote cur cs).map
            (fun f => trimJs (String.mk (f.filter (fun c => c ≠ Char.ofNat 34)))) := by
  intro cs
  induction cs with
  | nil => intro inQuote cur; rfl
  | cons c cs ih =>
    intro inQuote cur
    rw [splitLineGo, splitTopRaw]
    split_ifs with hq hc
    · subst hq
      have hf : (cur ++ [Char.ofNat 34]).filter (fun c => c ≠ Char.ofNat 34)
          = cur.filter (fun c => c ≠ Char.ofNat 34) := by
        rw [List.filter_append]
        simp
      rw [← hf]
      exact ih (!inQuote) (cur ++ [Char.ofNat 34])
    · rw [List.map_cons]
      exact congrArg _ (ih inQuote [])
    · have hf : (cur ++ [c]).filter (fun c => c ≠ Char.ofNat 34)
          = cur.filter (fun c => c ≠ Char.ofNat 34) ++ [c] := by
        rw [List.filter_append]
        simp [hq]
      have h3 := ih inQuote (cur ++ [c])
      rw [hf] at h3
      exact h3

theorem splitLine_eq_specSplitFields (line : String) :
    splitLine line = specSplitFields line := by
  have h := splitLineGo_eq_splitTopRaw line.data false []
  simpa [splitLine, specSplitFields] using h

/-- Counterexample for C6.  The code trims whitespace that lies inside
double quotes at the edges of a field (a fully quoted field `" x "`
normalizes to `"x"`, not `" x "`), and a lone carriage return is not a
line separator (`"a\rb"` stays one header field); the claim asserts that
only whitespace outside quotes is trimmed and that any line-ending
convention splits. -/
theorem csv_normalization_counterexample :
    parseCSV ("a\n\" x \"") = [(("a" : String), ["x"])] ∧
    parseCSV ("a\rb") = [(("a\rb" : String), [])] ∧
    ("x" : String) ≠ (" x ") := by
  refine ⟨by rfl, by rfl, by decide⟩

/-- C6 (amended).  CSV normalization splits the input into lines at `\n`
or `\r\n`, discards blank (whitespace-only) lines, takes the first
non-blank line as the header, and splits fields honoring double quotes: a
`"` toggles the inside-quotes state, a `,` inside quotes is part of the
field, the quote characters are stripped, and each field is trimmed of
leading and trailing whitespace after quote removal (including whitespace
that lay inside quotes); a data row's missing trailing fields are omitted
(not padded); in particular header `a,b` with one data row `1,"x,y"`
normalizes to column `a = ["1"]` and `b = ["x,y"]` with the comma
preserved and the quotes stripped. -/
theorem csv_normalization_amended :
    (∀ line : String, splitLine line = specSplitFields line) ∧
    parseCSV ("a,b\n1,\"x,y\"") = [(("a" : String), ["1"]), ("b", ["x,y"])] ∧
    parseCSV ("a,b\r\n\n1") = [(("a" : String), ["1"]), ("b", [])] := by
  refine ⟨splitLine_eq_specSplitFields, by rfl, by rfl⟩

/-! ### C7: JSON shape resolution -/

/-- The guard condition of `parseJSON`: the resolved row sequence is
empty (`!rows.length`, JavaScript truthiness) or its first element is not
an object in the `typeof` sense (where `null` and arrays do count as
objects, and a missing `rows[0]`, i.e. `undefined`, does not). -/
def emptyOrFirstNotObject (rows : JsonVal) : Prop :=
  jsLengthTruthy rows = false ∨
    jsIndex0 rows = none ∨
    ∃ w, jsIndex0 rows = some w ∧ jsTypeofObject w = false

/-- C7.  JSON normalization resolves the row sequence from exactly three
accepted shapes — a top-level array, the object's `data` field, or the
object's `rows` field (in that order, `null` fields skipped by `??`) —
otherwise wrapping the single parsed value as a one-element array; the
concrete `{"data": [...]}` input normalizes identically to the bare
array; and whenever the resolved row sequence is empty or its first
element is not an object (`typeof`), an empty table is returned. -/
theorem json_shape_resolution :
    (∀ xs : List JsonVal, resolveRows (.arr xs) = .ok (.arr xs)) ∧
    (∀ (fs : List (String × JsonVal)) (xs : List JsonVal),
      getField fs ("data") = some (.arr xs) →
      parseJSONVal (.obj fs) = parseJSONVal (.arr xs)) ∧
    (∀ (fs : List (String × JsonVal)) (xs : List JsonVal),
      getField fs ("data") = none →
      getField fs ("rows") = some (.arr xs) →
      parseJSONVal (.obj fs) = parseJSONVal (.arr xs)) ∧
    (∀ fs : List (String × JsonVal),
      getField fs ("data") = none →
      getField fs ("rows") = none →
      resolveRows (.obj fs) = .ok (.arr [.obj fs])) ∧
    (∀ (v rows : JsonVal), resolveRows v = .ok rows →
      emptyOrFirstNotObject rows → parseJSONVal v = .ok []) ∧
    (parseJSONTable ("\x7b\"data\": [\x7b\"email\":\"a@b.com\"\x7d]\x7d")
        = parseJSONTable ("[\x7b\"email\":\"a@b.com\"\x7d]") ∧
      parseJSONTable ("[\x7b\"email\":\"a@b.com\"\x7d]")
        = .ok [(("email" : String), ["a@b.com"])]) := by
  have hobj : ∀ (fs : List (String × JsonVal)) (xs : List JsonVal),
      getField fs ("data") = some (.arr xs) →
      resolveRows (.obj fs) = .ok (.arr xs) := by
    intro fs xs h
    simp [resolveRows, jsProp, h]
  have hobj2 : ∀ (fs : List (String × JsonVal)) (xs : List JsonVal),
      getField fs ("data") = none →
      getField fs ("rows") = some (.arr xs) →
      resolveRows (.obj fs) = .ok (.arr xs) := by
    intro fs xs h1 h2
    simp [resolveRows, jsProp, h1, h2]
  refine ⟨fun xs => rfl, ?_, ?_, ?_, ?_, by rfl, by rfl⟩
  · intro fs xs h
    unfold parseJSONVal
    rw [hobj fs xs h]
    rfl
  · intro fs xs h1 h2
    unfold parseJSONVal
    rw [hobj2 fs xs h1 h2]
    rfl
  · intro fs h1 h2
    simp [resolveRows, jsProp, h1, h2]
  · intro v rows hres hcond
    unfold parseJSONVal
    rw [hres]
    rcases hcond with hlen | hidx | ⟨w, hw, hty⟩
    · simp [hlen]
    · by_cases hlt : jsLengthTruthy rows
      · simp [hlt, hidx]
      · simp [hlt]
    · by_cases hlt : jsLengthTruthy rows
      · simp [hlt, hw, hty]
      · simp [hlt]

/-- Witness for C7: the `data`-field shape at a concrete object. -/
theorem json_shape_resolution_witness :
    parseJSONVal (.obj [(("data" : String), .arr [.num ("1")])])
      = parseJSONVal (.arr [.num ("1")]) :=
  json_shape_resolution.2.1 [(("data" : String), .arr [.num ("1")])] [.num ("1")] rfl

/-! ### C10: duplicate CSV header names -/

/-- The values a single data row contributes to column `h`: for each
header position (from index `i` on, left to right) carrying the name `h`,
the row's value at that position, if the row has one. -/
def rowContribGo (h : String) (values : List String) : Nat → List String → List String
  | _, [] => []
  | i, h2 :: hs =>
    (if h2 = h then (values.get? i).toList else []) ++ rowContribGo h values (i + 1) hs

/-- A row's contribution to column `h` over all header positions. -/
def rowContrib (h : String) (headers values : List String) : List String :=
  rowContribGo h values 0 headers

/-- Deduplication keeping the first occurrence of each element (the key
order of a JS record built by repeated insertion); `seen` collects the
elements already emitted. -/
def firstDedupGo (seen : List String) : List String → List String
  | [] => []
  | h :: t =>
    if h ∈ seen then firstDedupGo seen t
    else h :: firstDedupGo (h :: seen) t

/-- First-occurrence deduplication of a list. -/
def firstDedup (l : List String) : List String := firstDedupGo [] l

theorem firstDedupGo_cons (seen : List String) (h : String) (t : List String) :
    firstDedupGo seen (h :: t)
      = if h ∈ seen then firstDedupGo seen t
        else h :: firstDedupGo (h :: seen) t := rfl

theorem lookup_cons_ite (h a : String) (b : List String) (t : ColumnTable) :
    List.lookup h ((a, b) :: t) = if h = a then some b else List.lookup h t := by
  rw [List.lookup_cons]
  by_cases hh : h = a
  · simp [hh]
  · have hba : (h == a) = false := by simp [hh]
    rw [hba, if_neg hh]

theorem lookup_pushVal (t : ColumnTable) (k h v : String) :
    (pushVal t k v).lookup h =
      if h = k then (t.lookup h).map (fun l => l ++ [v]) else t.lookup h := by
  induction t with
  | nil =>
    by_cases hh : h = k <;> simp [pushVal, hh]
  | cons e t ih =>
    obtain ⟨a, b⟩ := e
    unfold pushVal at ih ⊢
    rw [List.map_cons]
    by_cases hak : a = k
    · subst hak
      simp only [if_pos rfl]
      rw [lookup_cons_ite, lookup_cons_ite]
      by_cases hha : h = a <;> simp [hha, ih]
    · simp only [if_neg hak]
      rw [lookup_cons_ite, lookup_cons_ite]
      by_cases hha : h = a
      · subst hha
        simp [hak]
      · simp [hha, ih]

theorem lookup_map_reset (t : ColumnTable) (k h : String) :
    (t.map (fun e => if e.1 = k then (e.1, ([] : List String)) else e)).lookup h
      = if h = k then (t.lookup h).map (fun _ => ([] : List String))
        else t.lookup h := by
  induction t with
  | nil => by_cases hh : h = k <;> simp [hh]
  | cons e t ih =>
    obtain ⟨a, b⟩ := e
    rw [List.map_cons]
    by_cases hak : a = k
    · subst hak
      simp only [if_pos rfl]
      rw [lookup_cons_ite, lookup_cons_ite]
      by_cases hha : h = a <;> simp [hha, ih]
    · simp only [if_neg hak]
      rw [lookup_cons_ite, lookup_cons_ite]
      by_cases hha : h = a
      · subst hha
        simp [hak]
      · simp [hha, ih]

theorem lookup_append_single (t : ColumnTable) (k h : String) (v : List String) :
    (t ++ [(k, v)]).lookup h
      = match t.lookup h with
        | some x => some x
        | none => if h = k then some v else none := by
  induction t with
  | nil => simp [lookup_cons_ite]
  | cons e t ih =>
    obtain ⟨a, b⟩ := e
    rw [List.cons_append, lookup_cons_ite, lookup_cons_ite]
    by_cases hha : h = a <;> simp [hha, ih]

theorem lookup_isSome_iff_mem_keys (t : ColumnTable) (k : String) :
    (t.lookup k).isSome ↔ k ∈ t.map Prod.fst := by
  induction t with
  | nil => simp
  | cons e t ih =>
    obtain ⟨a, b⟩ := e
    rw [lookup_cons_ite]
    by_cases hk : k = a <;> simp [hk, ih]

theorem lookup_setEmpty (t : ColumnTable) (k h : String) :
    (setEmpty t k).lookup h = if h = k then some [] else t.lookup h := by
  unfold setEmpty
  by_cases hp : (t.lookup k).isSome
  · rw [if_pos hp, lookup_map_reset]
    by_cases hhk : h = k
    · subst hhk
      obtain ⟨x, hx⟩ := Option.isSome_iff_exists.mp hp
      simp [hx]
    · simp [hhk]
  · rw [if_neg hp, lookup_append_single]
    by_cases hhk : h = k
    · subst hhk
      cases hl : t.lookup h with
      | some x => exact absurd (by simp [hl]) hp
      | none => simp
    · cases t.lookup h <;> simp [hhk]

theorem lookup_foldl_setEmpty :
    ∀ (headers : List String) (t0 : ColumnTable) (h : String),
      ((headers.foldl setEmpty t0).lookup h)
        = if h ∈ headers then some [] else t0.lookup h := by
  intro headers
  induction headers with
  | nil => intro t0 h; simp
  | cons a hs ih =>
    intro t0 h
    rw [List.foldl_cons, ih]
    by_cases hmem : h ∈ hs
    · simp [hmem]
    · rw [lookup_setEmpty]
      by_cases hha : h = a
      · simp [hha, hmem]
      · simp [hha, hmem]

theorem lookup_pushRowGo (values : List String) :
    ∀ (headers : List String) (i : Nat) (t : ColumnTable) (h : String),
      (pushRowGo values t i headers).lookup h
        = (t.lookup h).map (fun l => l ++ rowContribGo h values i headers) := by
  intro headers
  induction headers with
  | nil =>
    intro i t h
    unfold pushRowGo rowContribGo
    cases t.lookup h <;> simp
  | cons h2 hs ih =>
    intro i t h
    unfold pushRowGo rowContribGo
    cases hv : values.get? i with
    | some v =>
      rw [ih, lookup_pushVal]
      by_cases hh2 : h = h2
      · subst hh2
        simp only [if_pos rfl, if_pos rfl]
        cases t.lookup h <;> simp [hv, List.append_assoc]
      · have hh2s : ¬(h2 = h) := fun e => hh2 e.symm
        simp only [if_neg hh2, if_neg hh2s]
        cases t.lookup h <;> simp
    | none =>
      rw [ih]
      by_cases hh2 : h2 = h <;> (cases t.lookup h <;> simp [hh2, hv])

theorem lookup_foldl_pushRow (headers : List String) (h : String) :
    ∀ (rows : List (List String)) (t0 : ColumnTable),
      ((rows.foldl (fun t vals => pushRow t headers vals) t0).lookup h)
        = (t0.lookup h).map
            (fun l => l ++ (rows.map (fun row => rowContrib h headers row)).flatten) := by
  intro rows
  induction rows with
  | nil =>
    intro t0
    rw [List.foldl_nil]
    cases hl : t0.lookup h <;> simp
  | cons row rest ih =>
    intro t0
    rw [List.foldl_cons, ih]
    unfold pushRow
    rw [lookup_pushRowGo]
    cases hl : t0.lookup h <;> simp [rowContrib, List.append_assoc]

theorem lookup_mkColumns (headers : List String) (rows : List (List String))
    (h : String) :
    (mkColumns headers rows).lookup h
      = if h ∈ headers
        then some ((rows.map (fun row => rowContrib h headers row)).flatten)
        else none := by
  unfold mkColumns
  rw [lookup_foldl_pushRow, lookup_foldl_setEmpty]
  by_cases hm : h ∈ headers <;> simp [hm]

theorem keys_pushVal (t : ColumnTable) (k v : String) :
    (pushVal t k v).map Prod.fst = t.map Prod.fst := by
  unfold pushVal
  rw [List.map_map]
  apply List.map_congr_left
  intro e _
  by_cases hek : e.1 = k <;> simp [hek]

theorem keys_setEmpty (t : ColumnTable) (k : String) :
    (setEmpty t k).map Prod.fst
      = if (t.lookup k).isSome then t.map Prod.fst else t.map Prod.fst ++ [k] := by
  unfold setEmpty
  by_cases hp : (t.lookup k).isSome
  · rw [if_pos hp, if_pos hp, List.map_map]
    apply List.map_congr_left
    intro e _
    by_cases hek : e.1 = k <;> simp [hek]
  · rw [if_neg hp, if_neg hp]
    simp

theorem keys_pushRowGo (values : List String) :
    ∀ (headers : List String) (i : Nat) (t : ColumnTable),
      (pushRowGo values t i headers).map Prod.fst = t.map Prod.fst := by
  intro headers
  induction headers with
  | nil => intro i t; rfl
  | cons h2 hs ih =>
    intro i t
    unfold pushRowGo
    cases values.get? i with
    | some v => rw [ih, keys_pushVal]
    | none => rw [ih]

theorem keys_foldl_pushRow (headers : List String) :
    ∀ (rows : List (List String)) (t0 : ColumnTable),
      ((rows.foldl (fun t vals => pushRow t headers vals) t0).map Prod.fst)
        = t0.map Prod.fst := by
  intro rows
  induction rows with
  | nil => intro t0; rfl
  | cons row rest ih =>
    intro t0
    rw [List.foldl_cons, ih]
    unfold pushRow
    rw [keys_pushRowGo]

theorem firstDedupGo_congr :
    ∀ (l seen1 seen2 : List String), (∀ x, x ∈ seen1 ↔ x ∈ seen2) →
      firstDedupGo seen1 l = firstDedupGo seen2 l := by
  intro l
  induction l with
  | nil => intro _ _ _; rfl
  | cons h t ih =>
    intro seen1 seen2 hequiv
    unfold firstDedupGo
    by_cases hs : h ∈ seen1
    · rw [if_pos hs, if_pos ((hequiv h).mp hs), ih seen1 seen2 hequiv]
    · rw [if_neg hs, if_neg (fun hc => hs ((hequiv h).mpr hc))]
      rw [ih (h :: seen1) (h :: seen2)
        (by intro x; simp only [List.mem_cons]; rw [hequiv x])]

theorem keys_foldl_setEmpty :
    ∀ (headers : List String) (t0 : ColumnTable),
      (headers.foldl setEmpty t0).map Prod.fst
        = t0.map Prod.fst ++ firstDedupGo (t0.map Prod.fst) headers := by
  intro headers
  induction headers with
  | nil => intro t0; simp [firstDedupGo]
  | cons a hs ih =>
    intro t0
    rw [List.foldl_cons, ih, firstDedupGo_cons]
    by_cases hmem : a ∈ t0.map Prod.fst
    · have hsome : (t0.lookup a).isSome := (lookup_isSome_iff_mem_keys t0 a).mpr hmem
      rw [keys_setEmpty, if_pos hsome, if_pos hmem]
    · have hnone : ¬(t0.lookup a).isSome :=
        fun hc => hmem ((lookup_isSome_iff_mem_keys t0 a).mp hc)
      rw [keys_setEmpty, if_neg hnone, if_neg hmem]
      rw [firstDedupGo_congr hs (t0.map Prod.fst ++ [a]) (a :: t0.map Prod.fst)
        (by intro x; simp [List.mem_append, List.mem_cons, or_comm])]
      simp

theorem mem_firstDedupGo :
    ∀ (l seen : List String) (x : String),
      x ∈ firstDedupGo seen l ↔ x ∈ l ∧ x ∉ seen := by
  intro l
  induction l with
  | nil => intro seen x; simp [firstDedupGo]
  | cons h t ih =>
    intro seen x
    unfold firstDedupGo
    by_cases hs : h ∈ seen
    · rw [if_pos hs, ih]
      simp only [List.mem_cons]
      constructor
      · rintro ⟨hx, hns⟩
        exact ⟨Or.inr hx, hns⟩
      · rintro ⟨hor, hns⟩
        rcases hor with he | hx
        · exact absurd (he ▸ hs) hns
        · exact ⟨hx, hns⟩
    · rw [if_neg hs]
      simp only [List.mem_cons, ih]
      constructor
      · rintro (he | ⟨hx, hns⟩)
        · exact ⟨Or.inl he, he ▸ hs⟩
        · exact ⟨Or.inr hx, fun hc => hns (Or.inr hc)⟩
      · rintro ⟨hor, hns⟩
        rcases hor with he | hx
        · exact Or.inl he
        · by_cases hxh : x = h
          · exact Or.inl hxh
          · exact Or.inr ⟨hx, by simp [List.mem_cons, hxh, hns]⟩

theorem nodup_firstDedupGo :
    ∀ (l seen : List String), (firstDedupGo seen l).Nodup := by
  intro l
  induction l with
  | nil => intro seen; simp [firstDedupGo]
  | cons h t ih =>
    intro seen
    unfold firstDedupGo
    by_cases hs : h ∈ seen
    · rw [if_pos hs]; exact ih seen
    · rw [if_neg hs]
      refine List.nodup_cons.mpr ⟨?_, ih (h :: seen)⟩
      intro hc
      have := (mem_firstDedupGo t (h :: seen) h).mp hc
      exact this.2 (List.mem_cons_self h seen)

/-- C10.  For every CSV whose header row repeats a column name,
normalization produces a single column under that name (the key list of
the table is duplicate-free, with exactly the header names as keys), and
each data row contributes its value at every duplicated header position,
in left-to-right order, to that one column's value sequence
(`rowContrib`); consequently on `a,b,a` with rows `1,2,3` and `4,5,6`,
`columnsScanned` counts the repeated name once (2) and `rowsScanned` (4)
exceeds the number of data rows (2). -/
theorem csv_duplicate_headers :
    (∀ (headers : List String) (rows : List (List String)) (h : String),
      (mkColumns headers rows).lookup h
        = if h ∈ headers
          then some ((rows.map (fun row => rowContrib h headers row)).flatten)
          else none) ∧
    (∀ (headers : List String) (rows : List (List String)),
      ((mkColumns headers rows).map Prod.fst).Nodup ∧
      ∀ h, h ∈ (mkColumns headers rows).map Prod.fst ↔ h ∈ headers) ∧
    parseCSV ("a,b,a\n1,2,3\n4,5,6")
      = [(("a" : String), ["1", "3", "4", "6"]), ("b", ["2", "5"])] ∧
    (scanColumns (parseCSV ("a,b,a\n1,2,3\n4,5,6")) ("f")).columnsScanned = 2 ∧
    (scanColumns (parseCSV ("a,b,a\n1,2,3\n4,5,6")) ("f")).rowsScanned = 4 := by
  have hkeys : ∀ (headers : List String) (rows : List (List String)),
      (mkColumns headers rows).map Prod.fst = firstDedup headers := by
    intro headers rows
    unfold mkColumns firstDedup
    rw [keys_foldl_pushRow, keys_foldl_setEmpty]
    rfl
  refine ⟨lookup_mkColumns, ?_, by decide, by decide, by decide⟩
  intro headers rows
  rw [hkeys]
  refine ⟨nodup_firstDedupGo headers [], ?_⟩
  intro h
  rw [firstDedup, mem_firstDedupGo]
  simp

end PiiScan







